import Mathlib

namespace S25

/-!
Verification of the per-tick AI controller `AIPlayerJH` of s25client
(`libs/s25main/ai/aijh/AIPlayerJH.cpp`).

The development shallowly embeds the decision logic of the controller:
the bounded event-queue drain and job quota of `ExecuteAIJob`, the
difficulty-tier cadence table of the constructor, the modulo-tick triggers
of `RunGF`, the defeat state machine (`TestDefeat`), the resource
classification `CalcResource`, the warehouse good-blocking balancer
`DistributeGoodsByBlocking`, the land-attack selection `TryToAttack`, and
the reachability flood `InitReachableNodes` /
`IterativeReachableNodeChecker`.  External collaborators (world queries,
pathfinding, notification subscriptions) enter as explicit parameters.
-/

/-! ### Event queue drain (`ExecuteAIJob`, first loop)

`AIEventManager` (not part of the embedded sources) is, per the spec, a
FIFO queue: `EventAvailable` tests emptiness and `GetEvent` pops the
front.  Events are abstract; the drain loop of `ExecuteAIJob` is embedded
verbatim: `quota` starts at 10 and one event is popped and dispatched per
iteration while the queue is non-empty and quota remains. -/

/-- Modelled from the spec: `AIEventManager` is not under the embedded
sources; the spec describes it as a FIFO queue, so the drain loop of
`AIPlayerJH::ExecuteAIJob` is embedded as structural recursion on the
front of a list.  Returns (dispatched events in dispatch order, remaining
queue). -/
def drainEvents {α : Type} : List α → Nat → List α × List α
  | evs, 0 => ([], evs)
  | [], _ + 1 => ([], [])
  | e :: rest, quota + 1 =>
    let pr := drainEvents rest quota
    (e :: pr.1, pr.2)

/-- The event quota hard-coded in `AIPlayerJH::ExecuteAIJob`. -/
def eventQuota : Nat := 10

/-- The event-drain phase of one `ExecuteAIJob` call. -/
def executeAIJobDrain {α : Type} (events : List α) : List α × List α :=
  drainEvents events eventQuota

/-- Dispatched events accumulated over `k` successive `ExecuteAIJob`
calls, starting from queue `events` (no new arrivals in between). -/
def drainSeq {α : Type} (events : List α) : Nat → List α
  | 0 => []
  | k + 1 =>
    let pr := executeAIJobDrain events
    pr.1 ++ drainSeq pr.2 k

/-! ### Construction/connection job quota (`ExecuteAIJob`, second part) -/

/-- The quota computation of `AIPlayerJH::ExecuteAIJob`:
`quota = (#storehouses + #militaryBuildings) * 1`, capped at 40. -/
def constructionJobQuota (numStorehouses numMilBlds : Nat) : Nat :=
  let quota := (numStorehouses + numMilBlds) * 1
  if quota > 40 then 40 else quota

/-- Modelled from the spec: `AIConstruction::ExecuteJobs` is not under the
embedded sources; the spec states it advances up to `quota` jobs per call,
front-of-queue first.  Returns (advanced jobs, remaining queue). -/
def executeJobs {α : Type} (jobs : List α) (quota : Nat) : List α × List α :=
  (jobs.take quota, jobs.drop quota)

/-! ### Difficulty tiers and constructor cadences -/

/-- The difficulty tier `AI::Level`.  The enum declaration is not under
the embedded sources; the spec names exactly three supported tiers.
`invalid` models any other (out-of-range) enum value reaching the
`default` case of the constructor's `switch`. -/
inductive AILevel
  | easy
  | medium
  | hard
  | invalid
deriving DecidableEq, Repr

/-- The cadence table of the `AIPlayerJH` constructor: per tier the pair
(`attack_interval`, `build_interval`); an unsupported tier throws
`std::invalid_argument`, modelled as `Except.error` (the controller is
not created). -/
def initCadences : AILevel → Except String (Nat × Nat)
  | .easy => .ok (2500, 1000)
  | .medium => .ok (750, 400)
  | .hard => .ok (100, 200)
  | .invalid => .error "Invalid AI level!"

/-- The `attack_interval` of a supported tier. -/
def attackIntervalOf (l : AILevel) : Nat :=
  match initCadences l with
  | .ok p => p.1
  | .error _ => 0

/-- The `build_interval` of a supported tier. -/
def buildIntervalOf (l : AILevel) : Nat :=
  match initCadences l with
  | .ok p => p.2
  | .error _ => 0

/-! ### Periodic triggers of `RunGF`

Each trigger is the boolean condition of the corresponding `if` in
`AIPlayerJH::RunGF`, as a function of the game frame `gf` and the player
id.  The building-demand recomputation (`UpdateBuildingsWanted`) is gated
by `gf % 100 == 0` with no player term. -/

/-- Condition of `if(gf % 100 == 0) bldPlanner->UpdateBuildingsWanted(*this);` -/
def demandRecomputeTrigger (gf _playerId : Nat) : Bool :=
  gf % 100 == 0

/-- Condition of `if((gf + playerId * 17) % attack_interval == 0) TryToAttack();` -/
def landAttackTrigger (l : AILevel) (gf playerId : Nat) : Bool :=
  (gf + playerId * 17) % attackIntervalOf l == 0

/-- Condition of `if(((gf + playerId * 17) % 73 == 0) && (level != Easy))` -/
def milUpgradeTrigger (l : AILevel) (gf playerId : Nat) : Bool :=
  ((gf + playerId * 17) % 73 == 0) && (l != AILevel.easy)

/-- Condition of `if((gf + 41 + playerId * 17) % attack_interval == 0)` (sea attack). -/
def seaAttackTrigger (l : AILevel) (gf playerId : Nat) : Bool :=
  (gf + 41 + playerId * 17) % attackIntervalOf l == 0

/-- Condition of `if((gf + playerId * 13) % 1500 == 0)` (expeditions/forester/granite). -/
def expeditionTrigger (gf playerId : Nat) : Bool :=
  (gf + playerId * 13) % 1500 == 0

/-- Condition of `if((gf + playerId * 11) % 150 == 0)` (settings, sawmill pruning). -/
def settingsTrigger (gf playerId : Nat) : Bool :=
  (gf + playerId * 11) % 150 == 0

/-- Condition of `if((gf + playerId * 7) % build_interval == 0)` (new buildings). -/
def buildTrigger (l : AILevel) (gf playerId : Nat) : Bool :=
  (gf + playerId * 7) % buildIntervalOf l == 0

/-- Two players see a trigger on identical tick sets. -/
def sameTickSets (trig : Nat → Nat → Bool) (p q : Nat) : Prop :=
  ∀ gf, trig gf p = trig gf q

/-! ### Defeat state machine (`RunGF` prologue and `TestDefeat`)

`RunGF` starts with
`if(defeated) return; if(TestDefeat()) return;` followed by the 10-frame
init phase (`isInitGfCompleted`) and then the per-tick subsystems.
`TestDefeat` sets `defeated`, issues `Surrender()` and a chat message
when `isInitGfCompleted >= 10` and the storehouse list is empty.  The
subsystems after the prologue are abstracted as an arbitrary function
`rest`; the commands of `InitStoreAndMilitarylists`/`InitDistribution`
(run on the first frame) as an arbitrary list `initCmds`. -/

/-- Commands the controller can issue to the world interface; only
`surrender` and `chat` are distinguished, everything else is `other`. -/
inductive AICmd
  | surrender
  | chat
  | other (k : Nat)
deriving DecidableEq, Repr

/-- Controller state relevant to the `RunGF` prologue. -/
structure AIState where
  defeated : Bool
  isInitGfCompleted : Nat
deriving DecidableEq, Repr

/-- The world facts the prologue reads. -/
structure WorldView where
  storehousesEmpty : Bool
deriving DecidableEq, Repr

/-- One `RunGF` call, embedded down to the end of the init phase; the
remaining subsystems are the parameter `rest` (they never touch
`defeated`, but the theorems below do not even need that). -/
def runGF (initCmds : List AICmd) (rest : AIState → WorldView → AIState × List AICmd)
    (s : AIState) (w : WorldView) : AIState × List AICmd :=
  if s.defeated then (s, [])
  else if 10 ≤ s.isInitGfCompleted && w.storehousesEmpty then
    ({ s with defeated := true }, [.surrender, .chat])
  else
    let pre := if s.isInitGfCompleted == 0 then initCmds else []
    if s.isInitGfCompleted < 10 then
      ({ s with isInitGfCompleted := s.isInitGfCompleted + 1 }, pre)
    else
      let pr := rest s w
      (pr.1, pre ++ pr.2)

/-- A sequence of `RunGF` calls; returns the final state and the command
list issued by each call. -/
def runGFSeq (initCmds : List AICmd) (rest : AIState → WorldView → AIState × List AICmd)
    (s : AIState) : List WorldView → AIState × List (List AICmd)
  | [] => (s, [])
  | w :: ws =>
    let pr := runGF initCmds rest s w
    let prs := runGFSeq initCmds rest pr.1 ws
    (prs.1, pr.2 :: prs.2)

/-! ### Resource classification (`AIPlayerJH::CalcResource`) -/

/-- The enum `AISubSurfaceResource` (declared outside the embedded sources; the
constructor set is fixed by the `switch` uses and the spec). -/
inductive AISubSurfaceResource
  | Coal
  | Gold
  | Ironore
  | Granite
  | Fish
  | Nothing
deriving DecidableEq, Repr

/-- The enum `AISurfaceResource`: exactly the cases matched in `CalcResource`. -/
inductive AISurfaceResource
  | Stones
  | Wood
  | Blocked
  | Nothing
deriving DecidableEq, Repr

/-- The enum `AINodeResource`: the per-node resource class stored in the grid. -/
inductive AINodeResource
  | Gold
  | Coal
  | Ironore
  | Granite
  | Fish
  | Wood
  | Stones
  | Plantspace
  | Borderland
  | Multiple
  | Blocked
  | Nothing
deriving DecidableEq, Repr

/-- Modelled from the spec: `convertToNodeResource` for surface resources
is declared outside the embedded sources; per the spec it resolves a
surface resource to its own node class. -/
def convertSurfToNodeResource : AISurfaceResource → AINodeResource
  | .Stones => .Stones
  | .Wood => .Wood
  | .Blocked => .Blocked
  | .Nothing => .Nothing

/-- Modelled from the spec: `convertToNodeResource` for sub-surface
resources is declared outside the embedded sources; per the spec it
resolves to "the more specific sub-surface class". -/
def convertSubToNodeResource : AISubSurfaceResource → AINodeResource
  | .Coal => .Coal
  | .Gold => .Gold
  | .Ironore => .Ironore
  | .Granite => .Granite
  | .Fish => .Fish
  | .Nothing => .Nothing

/-- Embedding of `AIPlayerJH::CalcResource`.  The world queries
`GetSubsurfaceResource`, `GetSurfaceResource`, `IsOnRoad` and the vital
terrain test enter as the four arguments. -/
def calcResource (onRoad isVitalTerrain : Bool) (subRes : AISubSurfaceResource)
    (surfRes : AISurfaceResource) : AINodeResource :=
  if subRes = .Nothing then
    if surfRes = .Nothing then
      if onRoad then .Nothing
      else if !isVitalTerrain then .Nothing
      else .Plantspace
    else convertSurfToNodeResource surfRes
  else
    match surfRes with
    | .Stones => .Multiple
    | .Wood => .Multiple
    | .Blocked => .Nothing
    | .Nothing => convertSubToNodeResource subRes

/-! ### Resource desirability map position search

`AIResourceMap::findBestPosition` and `AIResourceMap::avoidPosition` are
not under the embedded sources. -/

/-- Modelled from the spec: the avoid-set of one resource map
(`AIResourceMap`, not under the embedded sources): tiles marked by
`avoidPosition` are excluded from future best-position queries. -/
structure ResMapState where
  avoid : List Nat
deriving DecidableEq, Repr

/-- Modelled from the spec: `avoidPosition(pt)` marks a tile permanently
excluded. -/
def avoidPosition (m : ResMapState) (p : Nat) : ResMapState :=
  ⟨p :: m.avoid⟩

/-- Modelled from the spec: `findBestPosition` scans the candidate tiles
(the radius-bounded, size-compatible tiles with their scores), excludes
tiles on the avoid-set, and returns the highest-scoring tile meeting the
minimum threshold, or the invalid-position sentinel (`none`). -/
def findBestPosition (m : ResMapState) (candidates : List (Nat × Int))
    (minimum : Int) : Option Nat :=
  candidates.foldl
    (fun best c =>
      if c.1 ∈ m.avoid then best
      else
        match best with
        | none => if minimum ≤ c.2 then some c else none
        | some b => if b.2 < c.2 ∧ minimum ≤ c.2 then some c else best)
    none |>.map Prod.fst

/-! ### Goods distribution (`AIPlayerJH::DistributeGoodsByBlocking`)

For a fixed good: each warehouse carries its visible ware count
(`GetNumVisualWares(good)`) and its current Stop/blocked setting.  The
function issues toggle commands guarded so that each warehouse ends in a
definite blocked state; the embedding returns each warehouse paired with
that final state (`true` = blocked).  Road connectivity
(`aii.FindPathOnRoads`) enters as a boolean parameter. -/

/-- One storehouse, for a fixed good. -/
structure WhState where
  pos : Nat
  wares : Nat
  blocked : Bool
deriving DecidableEq, Repr

/-- Insert one warehouse into the connectivity groups: it joins the first
group whose front warehouse it can reach on roads, else it opens a new
group at the end (mirrors the grouping loop of
`DistributeGoodsByBlocking`). -/
def addWhToGroups (connected : WhState → WhState → Bool) (wh : WhState) :
    List (List WhState) → List (List WhState)
  | [] => [[wh]]
  | [] :: rest => [] :: addWhToGroups connected wh rest
  | (w0 :: g) :: rest =>
    if connected wh w0 then (w0 :: (g ++ [wh])) :: rest
    else (w0 :: g) :: addWhToGroups connected wh rest

/-- The connectivity grouping of the storehouse list. -/
def whGroups (connected : WhState → WhState → Bool) (whs : List WhState) :
    List (List WhState) :=
  whs.foldl (fun gs wh => addWhToGroups connected wh gs) []

/-- Per-group balancing: if every warehouse holds strictly more than
`limit` wares, unblock all of them; otherwise unblock those at or below
`limit` and block the rest. -/
def processWhGroup (limit : Nat) (g : List WhState) : List (WhState × Bool) :=
  if g.all fun wh => limit < wh.wares then g.map fun wh => (wh, false)
  else g.map fun wh => (wh, decide (limit < wh.wares))

/-- Embedding of `AIPlayerJH::DistributeGoodsByBlocking`: on harbor-dominated maps
(`harbors >= storehouses/2`) unblock everywhere; otherwise group the
storehouses by road connectivity and balance each group. -/
def distributeGoodsByBlocking (connected : WhState → WhState → Bool)
    (numHarbors : Nat) (whs : List WhState) (limit : Nat) : List (WhState × Bool) :=
  if whs.length / 2 ≤ numHarbors then whs.map fun wh => (wh, false)
  else (whGroups connected whs).map (processWhGroup limit) |>.flatten

/-- The final blocked state of a warehouse in its group: blocked exactly
when it is above the limit while some warehouse of the group is at or
below it. -/
def whBlockDecision (limit : Nat) (g : List WhState) (wh : WhState) : Bool :=
  decide (limit < wh.wares) && g.any fun w => decide (w.wares ≤ limit)

/-! ### Land-attack evaluation (`AIPlayerJH::TryToAttack`)

The world queries are reified: each own military building carries its
frontier classification and the enemy buildings found around it by
`LookForMilitaryBuildings(src, 2)` together with their map distance from
it; each enemy target carries the facts read off it and, for the tally
loop, the own buildings found around the target
(`LookForMilitaryBuildings(dest, 2)`) with the soldier counts and
strengths they would contribute.  The `rand()` draws (one per own
building) enter as a function of the building index; the
`std::shuffle` of the non-priority tail enters as a function parameter
(instantiated with concrete permutations in closed statements). -/

/-- An own building near a potential target (`LookForMilitaryBuildings`
around the target position). -/
structure NearbyOwnBld where
  /-- `GetPlayer() == playerId` -/
  isOwn : Bool
  /-- `dynamic_cast<const nobMilitary*>` succeeds -/
  isNobMilitary : Bool
  /-- `IsUnderAttack()` -/
  underAttack : Bool
  /-- `newAttackers` out-parameter of `GetSoldiersStrengthForAttack` -/
  count : Nat
  /-- return value of `GetSoldiersStrengthForAttack` -/
  strength : Nat
deriving DecidableEq, Repr

/-- A potential attack target (an enemy `nobBaseMilitary`). -/
structure AttackTarget where
  /-- identity, standing in for the building pointer -/
  id : Nat
  /-- `GetGOT() == GO_Type::NobMilitary` -/
  isMilitary : Bool
  /-- `IsNewBuilt()` (military buildings only) -/
  isNewBuilt : Bool
  /-- `DefendersAvailable()` -/
  defendersAvailable : Bool
  /-- `aii.IsPlayerAttackable(GetPlayer())` -/
  attackable : Bool
  /-- `aii.IsVisible(GetPos())` -/
  visible : Bool
  /-- `GetSoldiersStrength()` (military buildings only) -/
  defStrength : Nat
  /-- `GetNumTroops()` (military buildings only) -/
  defTroops : Nat
  /-- own buildings around the target, in `LookForMilitaryBuildings` order -/
  nearbyOwn : List NearbyOwnBld
deriving DecidableEq, Repr

/-- An own military building used to search for enemy buildings. -/
structure OwnMilBld where
  /-- `GetFrontierDistance() == FrontierDistance::Far` -/
  frontierFar : Bool
  /-- enemy buildings around it, each with its distance `CalcDistance(src, dest)` -/
  enemies : List (AttackTarget × Nat)
deriving Repr

/-- The constant `BASE_ATTACKING_DISTANCE` (declared in `GameConsts.h`, outside the
embedded sources; the spec calls it "a fixed distance threshold"). -/
def BASE_ATTACKING_DISTANCE : Nat := 35

/-- Add one enemy building found near an own building to the accumulated
(potential targets, priority count): duplicates and new-built military
buildings are skipped; in-range, attackable, visible targets are kept;
an undefended non-military building goes to the front of the list (and
bumps the priority count), everything else to the back. -/
def addPotentialTarget (st : List AttackTarget × Nat) (td : AttackTarget × Nat) :
    List AttackTarget × Nat :=
  if st.1.any fun x => x.id == td.1.id then st
  else if td.1.isMilitary && td.1.isNewBuilt then st
  else if td.2 < BASE_ATTACKING_DISTANCE && td.1.attackable && td.1.visible then
    if !td.1.isMilitary && !td.1.defendersAvailable then (td.1 :: st.1, st.2 + 1)
    else (st.1 ++ [td.1], st.2)
  else st

/-- The target-collection loop of `TryToAttack`: each own building is
skipped with probability given by `rand() % numMilBlds > 40` (the draw
for the building at index `i` is `randv i`) or when it is an inland
building; otherwise its nearby enemy buildings are accumulated. -/
def collectTargets (randv : Nat → Nat) (blds : List OwnMilBld) :
    List AttackTarget × Nat :=
  let numMilBlds := blds.length
  (blds.enum).foldl
    (fun st bi =>
      if randv bi.1 % numMilBlds > 40 then st
      else if bi.2.frontierFar then st
      else bi.2.enemies.foldl addPotentialTarget st)
    ([], 0)

/-- The attacker tally for one target: total `newAttackers` and total
strength contributed by own, not-under-attack `nobMilitary` buildings
near it. -/
def tallyAttackers (t : AttackTarget) : Nat × Nat :=
  t.nearbyOwn.foldl
    (fun cs b =>
      if b.isOwn && b.isNobMilitary && !b.underAttack then
        (cs.1 + b.count, cs.2 + b.strength)
      else cs)
    (0, 0)

/-- The per-target decision of the selection loop of `TryToAttack`: the
target is attacked when the tallied attacker count is positive and, on
the hardest tier for military targets, the tallied strength exceeds the
defender strength and the defender garrison is non-empty. -/
def codeAttackPred (l : AILevel) (t : AttackTarget) : Bool :=
  (tallyAttackers t).1 != 0
    && !(l == AILevel.hard && t.isMilitary
          && (decide ((tallyAttackers t).2 ≤ t.defStrength) || t.defTroops == 0))

/-- The selection loop of `TryToAttack`: walk the prioritized target list
and issue `aii.Attack(dest, attackersCount, true)` on the first target
passing the checks, then return. -/
def selectAttack (l : AILevel) : List AttackTarget → Option (Nat × Nat)
  | [] => none
  | t :: rest =>
    if (tallyAttackers t).1 == 0 then selectAttack l rest
    else if l == AILevel.hard && t.isMilitary
        && (decide ((tallyAttackers t).2 ≤ t.defStrength) || t.defTroops == 0) then
      selectAttack l rest
    else some (t.id, (tallyAttackers t).1)

/-- The priority order in which `TryToAttack` walks the potential
targets: the undefended headquarters/harbors collected at the front stay
in place, the tail is shuffled (`std::shuffle`, a permutation supplied as
a parameter). -/
def priorityOrderedTargets (shuffleTail : List AttackTarget → List AttackTarget)
    (randv : Nat → Nat) (blds : List OwnMilBld) : List AttackTarget :=
  let st := collectTargets randv blds
  st.1.take st.2 ++ shuffleTail (st.1.drop st.2)

/-- Embedding of `AIPlayerJH::TryToAttack`: collect potential targets, shuffle
everything behind the priority prefix, and issue at most one attack.
Returns the attacked target id and attacker count, or `none`. -/
def tryToAttack (l : AILevel) (shuffleTail : List AttackTarget → List AttackTarget)
    (randv : Nat → Nat) (blds : List OwnMilBld) : Option (Nat × Nat) :=
  selectAttack l (priorityOrderedTargets shuffleTail randv blds)

/-- The per-target decision as worded by the claim: positive attacker
count and, on the hardest tier for military targets, attacker strength
exceeding defender strength (the claim does not except an empty defender
garrison). -/
def claimAttackPred (l : AILevel) (t : AttackTarget) : Bool :=
  (tallyAttackers t).1 != 0
    && !(l == AILevel.hard && t.isMilitary
          && decide ((tallyAttackers t).2 ≤ t.defStrength))

/-- The attack the claim predicts: against the first candidate in
priority order satisfying the claim's per-target decision. -/
def claimPredictedAttack (l : AILevel)
    (shuffleTail : List AttackTarget → List AttackTarget)
    (randv : Nat → Nat) (blds : List OwnMilBld) : Option (Nat × Nat) :=
  ((priorityOrderedTargets shuffleTail randv blds).find? (claimAttackPred l)).map
    fun t => (t.id, (tallyAttackers t).1)

/-- A concrete enemy military building: garrison empty (strength 0,
troops 0), attackable, visible, not new built, with one own military
building nearby able to contribute 1 attacker of strength 5. -/
def zeroTroopTarget : AttackTarget :=
  ⟨0, true, false, true, true, true, 0, 0, [⟨true, true, false, 1, 5⟩]⟩

/-- A concrete own frontier military building next to `zeroTroopTarget`
(distance 0). -/
def zeroTroopBld : OwnMilBld :=
  ⟨false, [(zeroTroopTarget, 0)]⟩

/-- A constant random stream (every draw is 0). -/
def zeroRand : Nat → Nat := fun _ => 0

/-- The identity permutation used to instantiate `std::shuffle` in closed
statements. -/
def idShuffle : List AttackTarget → List AttackTarget := id

/-! ### Reachability flood (`AIPlayerJH::InitReachableNodes` and
`AIPlayerJH::IterativeReachableNodeChecker`)

The map is a fixed finite set of tiles, indexed by `Fin n`; the grid
topology (`GetNeighbours`), the externally supplied road-path feasibility
predicate (`PathConditionRoad::IsNodeOk`) and the own-flag test
(`GetSpecObj<noFlag>` plus owner check) enter as fields of `ReachGraph`.
The per-tile mutable state is `reachable` and `failed_penalty`, exactly
the fields touched by the two functions. -/

/-- The world facts the reachability flood reads. -/
structure ReachGraph (n : Nat) where
  neighbours : Fin n → List (Fin n)
  isNodeOk : Fin n → Bool
  hasOwnFlag : Fin n → Bool

/-- The per-tile state mutated by the flood. -/
structure ReachState (n : Nat) where
  reachable : Fin n → Bool
  failed_penalty : Fin n → Nat

/-- Number of tiles not yet marked reachable (termination measure). -/
def unreachCard {n : Nat} (st : ReachState n) : Nat :=
  (Finset.univ.filter fun x => st.reachable x = false).card

/-- The inner `for` of `IterativeReachableNodeChecker`: test the
neighbours of the popped tile one after the other; an unreached tile
passing the feasibility predicate is marked reachable and pushed when its
penalty is zero, else its penalty is decremented.  Returns the updated
state and the tiles pushed, in push order. -/
def processNeighbours {n : Nat} (g : ReachGraph n) (st : ReachState n) :
    List (Fin n) → ReachState n × List (Fin n)
  | [] => (st, [])
  | nb :: rest =>
    if st.reachable nb then processNeighbours g st rest
    else if g.isNodeOk nb then
      if st.failed_penalty nb = 0 then
        let st2 : ReachState n :=
          { st with reachable := Function.update st.reachable nb true }
        let pr := processNeighbours g st2 rest
        (pr.1, nb :: pr.2)
      else
        processNeighbours g
          { st with failed_penalty :=
              Function.update st.failed_penalty nb (st.failed_penalty nb - 1) }
          rest
    else processNeighbours g st rest

/-- The `while(!toCheck.empty())` loop of `IterativeReachableNodeChecker`:
pop the front tile, process its neighbours, append the newly reached
tiles to the queue. -/
def checkQueue {n : Nat} (g : ReachGraph n) :
    ReachState n → List (Fin n) → ReachState n
  | st, [] => st
  | st, cur :: rest =>
    let pr := processNeighbours g st (g.neighbours cur)
    checkQueue g pr.1 (rest ++ pr.2)
termination_by st q => 2 * unreachCard st + q.length
decreasing_by
  have key : ∀ (s : ReachState n) (ns : List (Fin n)),
      unreachCard (processNeighbours g s ns).1 + (processNeighbours g s ns).2.length
        = unreachCard s := by
    intro s ns
    induction ns generalizing s with
    | nil => simp [processNeighbours]
    | cons nb tl ih =>
      cases hr : s.reachable nb with
      | true => simpa [processNeighbours, hr] using ih s
      | false =>
        cases hok : g.isNodeOk nb with
        | false =>
          simpa [processNeighbours, hr, hok] using ih s
        | true =>
          by_cases hpen : s.failed_penalty nb = 0
          · have hcard : unreachCard s
                = unreachCard { s with reachable := Function.update s.reachable nb true } + 1 := by
              have hmem : nb ∈ Finset.univ.filter fun x => s.reachable x = false := by
                simp [hr]
              have hset : (Finset.univ.filter fun x =>
                    (Function.update s.reachable nb true) x = false)
                  = (Finset.univ.filter fun x => s.reachable x = false).erase nb := by
                ext x
                by_cases hx : x = nb <;>
                  simp [Function.update, hx, Finset.mem_erase]
              have herase := Finset.card_erase_of_mem hmem
              have hpos : 0 < (Finset.univ.filter fun x => s.reachable x = false).card :=
                Finset.card_pos.mpr ⟨nb, hmem⟩
              simp only [unreachCard, hset, herase]
              omega
            have hrec := ih { s with reachable := Function.update s.reachable nb true }
            simp only [processNeighbours, hr, hok, if_pos hpen, Bool.false_eq_true,
              if_false, if_true, List.length_cons]
            omega
          · have hrec :=
              ih ⟨s.reachable, Function.update s.failed_penalty nb (s.failed_penalty nb - 1)⟩
            simpa [processNeighbours, hr, hok, hpen, unreachCard] using hrec
  have h := key st (g.neighbours cur)
  simp only [List.length_append, List.length_cons]
  omega

/-- Embedding of `AIPlayerJH::InitReachableNodes`: reset every tile to unreachable
with zero penalty, mark the tiles holding an own flag reachable, seed the
queue with them (in grid iteration order) and run the iterative checker. -/
def initReachableNodes {n : Nat} (g : ReachGraph n) : ReachState n :=
  checkQueue g ⟨g.hasOwnFlag, fun _ => 0⟩
    ((List.finRange n).filter fun x => g.hasOwnFlag x)

/-- A tile holds an own flag, or is joined to such a tile by a chain of
neighbour steps in which every stepped-onto tile passes the road-path
feasibility predicate. -/
inductive FlagReachable {n : Nat} (g : ReachGraph n) : Fin n → Prop
  | flag (x : Fin n) : g.hasOwnFlag x = true → FlagReachable g x
  | step (x y : Fin n) : FlagReachable g x → y ∈ g.neighbours x →
      g.isNodeOk y = true → FlagReachable g y

/-! ### Concrete instances for closed statements -/

/-- A road network on which every pair of warehouses is connected. -/
def connAlways : WhState → WhState → Bool := fun _ _ => true

/-- A warehouse holding 6 wares of the distributed good, currently
unblocked. -/
def whSixA : WhState := ⟨0, 6, false⟩

/-- A second warehouse holding 6 wares, currently unblocked. -/
def whSixB : WhState := ⟨1, 6, false⟩

/-- A warehouse holding 3 wares (below a limit of 5). -/
def whBelow : WhState := ⟨0, 3, false⟩

/-- A warehouse holding 8 wares (above a limit of 5). -/
def whAbove : WhState := ⟨1, 8, false⟩

/-- The classification rule as worded by the amended claim: with no
sub-surface resource and no surface resource the tile is `Nothing`,
except that a vital tile not on a road is `Plantspace`; with no
sub-surface resource but a surface resource, the surface class; with a
sub-surface resource: `Multiple` under a stone or wood surface resource,
`Nothing` under a blocked surface, and the specific sub-surface class
otherwise. -/
def claimedCalcResource (onRoad isVitalTerrain : Bool)
    (subRes : AISubSurfaceResource) (surfRes : AISurfaceResource) : AINodeResource :=
  if subRes = .Nothing ∧ surfRes = .Nothing then
    if isVitalTerrain ∧ !onRoad then .Plantspace else .Nothing
  else if subRes = .Nothing then convertSurfToNodeResource surfRes
  else if surfRes = .Stones ∨ surfRes = .Wood then .Multiple
  else if surfRes = .Blocked then .Nothing
  else convertSubToNodeResource subRes

/-- Subsystems that do nothing, to instantiate `runGF` in closed
statements. -/
def restNoop : AIState → WorldView → AIState × List AICmd := fun s _ => (s, [])

/-- With zero penalties throughout, the final marking is closed under
feasible neighbour steps. -/
theorem drainEvents_eq_take_drop {α : Type} (evs : List α) (q : Nat) :
    drainEvents evs q = (evs.take q, evs.drop q) := by
  induction evs generalizing q with
  | nil => cases q <;> simp [drainEvents]
  | cons e rest ih => cases q <;> simp [drainEvents, ih]

theorem constructionJobQuota_eq_min (sh mil : Nat) :
    constructionJobQuota sh mil = min (sh + mil) 40 := by
  simp only [constructionJobQuota, Nat.mul_one]
  split <;> omega

theorem runGF_defeated_noop (initCmds : List AICmd)
    (rest : AIState → WorldView → AIState × List AICmd) (s : AIState) (w : WorldView)
    (h : s.defeated = true) : runGF initCmds rest s w = (s, []) := by
  simp [runGF, h]

theorem runGFSeq_defeated_noop (initCmds : List AICmd)
    (rest : AIState → WorldView → AIState × List AICmd) (s : AIState)
    (ws : List WorldView) (h : s.defeated = true) :
    runGFSeq initCmds rest s ws = (s, ws.map fun _ => []) := by
  induction ws with
  | nil => simp [runGFSeq]
  | cons w ws ih => simp [runGFSeq, runGF_defeated_noop _ _ _ _ h, ih]

theorem findBestPosition_foldl_mem (m : ResMapState) (candidates : List (Nat × Int))
    (minimum : Int) (acc : Option (Nat × Int)) (p : Nat) (s : Int)
    (hacc : ∀ b, acc = some b → b.1 ∉ m.avoid)
    (h : (candidates.foldl
      (fun best c =>
        if c.1 ∈ m.avoid then best
        else
          match best with
          | none => if minimum ≤ c.2 then some c else none
          | some b => if b.2 < c.2 ∧ minimum ≤ c.2 then some c else best)
      acc) = some (p, s)) : p ∉ m.avoid := by
  induction candidates generalizing acc with
  | nil =>
    simp only [List.foldl_nil] at h
    exact hacc _ h
  | cons c rest ih =>
    simp only [List.foldl_cons] at h
    refine ih _ ?_ h
    intro b hb
    by_cases hcm : c.1 ∈ m.avoid
    · simp only [hcm, if_pos] at hb
      exact hacc _ hb
    · simp only [hcm, if_neg, not_false_iff] at hb
      rcases acc with _ | a
      · simp only at hb
        split at hb
        · cases hb; exact hcm
        · cases hb
      · simp only at hb
        split at hb
        · cases hb; exact hcm
        · exact hacc _ hb

theorem processWhGroup_eq_decision (limit : Nat) (g : List WhState) :
    processWhGroup limit g = g.map fun wh => (wh, whBlockDecision limit g wh) := by
  unfold processWhGroup whBlockDecision
  by_cases h : g.all fun wh => limit < wh.wares
  · rw [if_pos h]
    apply List.map_congr_left
    intro wh _
    have : ¬ g.any fun w => decide (w.wares ≤ limit) := by
      simp only [List.all_eq_true, decide_eq_true_eq] at h
      simp only [List.any_eq_true, decide_eq_true_eq, not_exists, not_and]
      intro w hw
      have := h w hw
      omega
    simp [this]
  · rw [if_neg h]
    apply List.map_congr_left
    intro wh _
    have : g.any fun w => decide (w.wares ≤ limit) := by
      simp only [List.all_eq_true, decide_eq_true_eq, not_forall] at h
      obtain ⟨w, hw, hlt⟩ := h
      simp only [List.any_eq_true, decide_eq_true_eq]
      exact ⟨w, hw, by omega⟩
    simp [this]

/-- Inserting a warehouse adds it to exactly one group. -/
theorem addWhToGroups_flatten (connected : WhState → WhState → Bool) (wh : WhState)
    (gs : List (List WhState)) :
    (addWhToGroups connected wh gs).flatten.Perm (wh :: gs.flatten) := by
  induction gs with
  | nil => simp [addWhToGroups]
  | cons g rest ih =>
    match g with
    | [] =>
      simpa [addWhToGroups] using ih
    | w0 :: g =>
      by_cases hc : connected wh w0
      · simp only [addWhToGroups, if_pos hc, List.flatten_cons]
        have he : (w0 :: (g ++ [wh])) ++ rest.flatten
            = (w0 :: g) ++ (wh :: rest.flatten) := by simp
        rw [he]
        exact List.perm_middle
      · simp only [addWhToGroups, if_neg hc, List.flatten_cons]
        exact (List.Perm.append_left (w0 :: g) ih).trans List.perm_middle

/-- The connectivity groups partition the storehouse list. -/
theorem whGroups_flatten_perm (connected : WhState → WhState → Bool)
    (whs : List WhState) : (whGroups connected whs).flatten.Perm whs := by
  suffices h : ∀ gs : List (List WhState),
      (whs.foldl (fun gs wh => addWhToGroups connected wh gs) gs).flatten.Perm
        (gs.flatten ++ whs) by
    simpa [whGroups] using h []
  induction whs with
  | nil => intro gs; simp
  | cons wh rest ih =>
    intro gs
    simp only [List.foldl_cons]
    refine (ih (addWhToGroups connected wh gs)).trans ?_
    refine List.Perm.trans
      (List.Perm.append_right rest (addWhToGroups_flatten connected wh gs)) ?_
    exact List.Perm.symm List.perm_middle

/-- The selection loop picks exactly the first target satisfying the
per-target decision. -/
theorem selectAttack_eq_find (l : AILevel) (ts : List AttackTarget) :
    selectAttack l ts
      = (ts.find? (codeAttackPred l)).map fun t => (t.id, (tallyAttackers t).1) := by
  induction ts with
  | nil => simp [selectAttack]
  | cons t rest ih =>
    cases hq : (tallyAttackers t).1 == 0 with
    | true =>
      have hp : codeAttackPred l t = false := by
        simp only [codeAttackPred, bne, hq, Bool.not_true, Bool.false_and]
      simp [selectAttack, hq, hp, List.find?_cons, ih]
    | false =>
      cases hh : (l == AILevel.hard && t.isMilitary
          && (decide ((tallyAttackers t).2 ≤ t.defStrength) || t.defTroops == 0)) with
      | true =>
        have hp : codeAttackPred l t = false := by
          simp only [codeAttackPred, hh, Bool.not_true, Bool.and_false]
        simp [selectAttack, hq, hh, hp, List.find?_cons, ih]
      | false =>
        have hp : codeAttackPred l t = true := by
          simp only [codeAttackPred, bne, hq, hh, Bool.not_false, Bool.and_self]
        simp [selectAttack, hq, hh, hp, List.find?_cons]

theorem processNeighbours_mono {n : Nat} (g : ReachGraph n) (st : ReachState n)
    (ns : List (Fin n)) (x : Fin n) (hx : st.reachable x = true) :
    (processNeighbours g st ns).1.reachable x = true := by
  induction ns generalizing st with
  | nil => simpa [processNeighbours] using hx
  | cons nb rest ih =>
    cases hr : st.reachable nb with
    | true => simp only [processNeighbours, hr, if_true]; exact ih st hx
    | false =>
      cases hok : g.isNodeOk nb with
      | false => simp [processNeighbours, hr, hok]; exact ih st hx
      | true =>
        by_cases hpen : st.failed_penalty nb = 0
        · simp only [processNeighbours, hr, hok, if_pos hpen, Bool.false_eq_true,
            if_false, if_true]
          refine ih _ ?_
          by_cases hxnb : x = nb <;> simp [Function.update, hxnb, hx]
        · simp only [processNeighbours, hr, hok, if_neg hpen, Bool.false_eq_true,
            if_false, if_true]
          exact ih _ hx

theorem processNeighbours_penalty_zero {n : Nat} (g : ReachGraph n)
    (st : ReachState n) (ns : List (Fin n))
    (hz : ∀ y, st.failed_penalty y = 0) (y : Fin n) :
    (processNeighbours g st ns).1.failed_penalty y = 0 := by
  induction ns generalizing st with
  | nil => simpa [processNeighbours] using hz y
  | cons nb rest ih =>
    cases hr : st.reachable nb with
    | true => simp only [processNeighbours, hr, if_true]; exact ih st hz
    | false =>
      cases hok : g.isNodeOk nb with
      | false => simp [processNeighbours, hr, hok]; exact ih st hz
      | true =>
        have hpen : st.failed_penalty nb = 0 := hz nb
        simp only [processNeighbours, hr, hok, if_pos hpen, Bool.false_eq_true,
          if_false, if_true]
        exact ih _ hz

/-- Every tile marked by the neighbour pass was already marked or is
among the pushed tiles. -/
theorem processNeighbours_new_mem {n : Nat} (g : ReachGraph n) (st : ReachState n)
    (ns : List (Fin n)) (x : Fin n)
    (hx : (processNeighbours g st ns).1.reachable x = true) :
    st.reachable x = true ∨ x ∈ (processNeighbours g st ns).2 := by
  induction ns generalizing st with
  | nil => simpa [processNeighbours] using hx
  | cons nb rest ih =>
    cases hr : st.reachable nb with
    | true =>
      simp only [processNeighbours, hr, if_true] at hx ⊢
      exact ih st hx
    | false =>
      cases hok : g.isNodeOk nb with
      | false =>
        simp only [processNeighbours, hr, hok, Bool.false_eq_true, if_false] at hx ⊢
        exact ih st hx
      | true =>
        by_cases hpen : st.failed_penalty nb = 0
        · simp only [processNeighbours, hr, hok, if_pos hpen, Bool.false_eq_true,
            if_false, if_true] at hx ⊢
          rcases ih _ hx with hmark | hmem
          · by_cases hxnb : x = nb
            · subst hxnb; exact Or.inr (List.mem_cons_self _ _)
            · have hmark2 : Function.update st.reachable nb true x = true := hmark
              rw [Function.update_apply, if_neg hxnb] at hmark2
              exact Or.inl hmark2
          · exact Or.inr (List.mem_cons_of_mem _ hmem)
        · simp only [processNeighbours, hr, hok, if_neg hpen, Bool.false_eq_true,
            if_false, if_true] at hx ⊢
          exact ih _ hx

/-- Every tile marked by the neighbour pass was already marked or is one
of the visited neighbours passing the feasibility predicate. -/
theorem processNeighbours_sound {n : Nat} (g : ReachGraph n) (st : ReachState n)
    (ns : List (Fin n)) (x : Fin n)
    (hx : (processNeighbours g st ns).1.reachable x = true) :
    st.reachable x = true ∨ (x ∈ ns ∧ g.isNodeOk x = true) := by
  induction ns generalizing st with
  | nil => simpa [processNeighbours] using hx
  | cons nb rest ih =>
    cases hr : st.reachable nb with
    | true =>
      simp only [processNeighbours, hr, if_true] at hx
      rcases ih st hx with h | ⟨hm, ho⟩
      · exact Or.inl h
      · exact Or.inr ⟨List.mem_cons_of_mem _ hm, ho⟩
    | false =>
      cases hok : g.isNodeOk nb with
      | false =>
        simp only [processNeighbours, hr, hok, Bool.false_eq_true, if_false] at hx
        rcases ih st hx with h | ⟨hm, ho⟩
        · exact Or.inl h
        · exact Or.inr ⟨List.mem_cons_of_mem _ hm, ho⟩
      | true =>
        by_cases hpen : st.failed_penalty nb = 0
        · simp only [processNeighbours, hr, hok, if_pos hpen, Bool.false_eq_true,
            if_false, if_true] at hx
          rcases ih _ hx with hmark | ⟨hm, ho⟩
          · by_cases hxnb : x = nb
            · subst hxnb; exact Or.inr ⟨List.mem_cons_self _ _, hok⟩
            · simp only [Function.update, dif_neg hxnb] at hmark
              exact Or.inl hmark
          · exact Or.inr ⟨List.mem_cons_of_mem _ hm, ho⟩
        · simp only [processNeighbours, hr, hok, if_neg hpen, Bool.false_eq_true,
            if_false, if_true] at hx
          rcases ih _ hx with h | ⟨hm, ho⟩
          · exact Or.inl h
          · exact Or.inr ⟨List.mem_cons_of_mem _ hm, ho⟩

/-- Every pushed tile ends up marked. -/
theorem processNeighbours_pushed_marked {n : Nat} (g : ReachGraph n)
    (st : ReachState n) (ns : List (Fin n)) (x : Fin n)
    (hx : x ∈ (processNeighbours g st ns).2) :
    (processNeighbours g st ns).1.reachable x = true := by
  induction ns generalizing st with
  | nil => simp [processNeighbours] at hx
  | cons nb rest ih =>
    cases hr : st.reachable nb with
    | true =>
      simp only [processNeighbours, hr, if_true] at hx ⊢
      exact ih st hx
    | false =>
      cases hok : g.isNodeOk nb with
      | false =>
        simp only [processNeighbours, hr, hok, Bool.false_eq_true, if_false] at hx ⊢
        exact ih st hx
      | true =>
        by_cases hpen : st.failed_penalty nb = 0
        · simp only [processNeighbours, hr, hok, if_pos hpen, Bool.false_eq_true,
            if_false, if_true, List.mem_cons] at hx ⊢
          rcases hx with hxnb | hmem
          · subst hxnb
            refine processNeighbours_mono g _ rest x ?_
            simp [Function.update]
          · exact ih _ hmem
        · simp only [processNeighbours, hr, hok, if_neg hpen, Bool.false_eq_true,
            if_false, if_true] at hx ⊢
          exact ih _ hx

/-- With all penalties at zero (the `InitReachableNodes` situation),
after the neighbour pass every visited neighbour passing the feasibility
predicate is marked. -/
theorem processNeighbours_closure {n : Nat} (g : ReachGraph n) (st : ReachState n)
    (ns : List (Fin n)) (hz : ∀ y, st.failed_penalty y = 0) (y : Fin n)
    (hy : y ∈ ns) (hok : g.isNodeOk y = true) :
    (processNeighbours g st ns).1.reachable y = true := by
  induction ns generalizing st with
  | nil => simp at hy
  | cons nb rest ih =>
    rcases List.mem_cons.mp hy with hynb | hmem
    · subst hynb
      cases hr : st.reachable y with
      | true =>
        simp only [processNeighbours, hr, if_true]
        exact processNeighbours_mono g st rest y hr
      | false =>
        have hpen : st.failed_penalty y = 0 := hz y
        simp only [processNeighbours, hr, hok, if_pos hpen, Bool.false_eq_true,
          if_false, if_true]
        refine processNeighbours_mono g _ rest y ?_
        simp [Function.update]
    · cases hr : st.reachable nb with
      | true =>
        simp only [processNeighbours, hr, if_true]
        exact ih st hz hmem
      | false =>
        cases hoknb : g.isNodeOk nb with
        | false =>
          simp only [processNeighbours, hr, hoknb, Bool.false_eq_true, if_false]
          exact ih st hz hmem
        | true =>
          have hpen : st.failed_penalty nb = 0 := hz nb
          simp only [processNeighbours, hr, hoknb, if_pos hpen, Bool.false_eq_true,
            if_false, if_true]
          refine ih _ ?_ hmem
          exact hz

theorem checkQueue_mono {n : Nat} (g : ReachGraph n) (st : ReachState n)
    (q : List (Fin n)) (x : Fin n) (hx : st.reachable x = true) :
    (checkQueue g st q).reachable x = true := by
  induction st, q using checkQueue.induct g with
  | case1 st => simpa [checkQueue] using hx
  | case2 st cur rest pr ih =>
    rw [checkQueue]
    exact ih (processNeighbours_mono g st (g.neighbours cur) x hx)

theorem checkQueue_sound {n : Nat} (g : ReachGraph n) (st : ReachState n)
    (q : List (Fin n))
    (hinv1 : ∀ x, st.reachable x = true → FlagReachable g x)
    (hinv2 : ∀ c ∈ q, st.reachable c = true) (x : Fin n)
    (hx : (checkQueue g st q).reachable x = true) : FlagReachable g x := by
  induction st, q using checkQueue.induct g with
  | case1 st =>
    rw [checkQueue] at hx
    exact hinv1 x hx
  | case2 st cur rest pr ih =>
    rw [checkQueue] at hx
    have hcur : FlagReachable g cur :=
      hinv1 cur (hinv2 cur (List.mem_cons_self _ _))
    refine ih ?_ ?_ hx
    · intro z hz
      rcases processNeighbours_sound g st (g.neighbours cur) z hz with h | ⟨hm, ho⟩
      · exact hinv1 z h
      · exact FlagReachable.step cur z hcur hm ho
    · intro c hc
      rcases List.mem_append.mp hc with hcr | hcp
      · exact processNeighbours_mono g st (g.neighbours cur) c
          (hinv2 c (List.mem_cons_of_mem _ hcr))
      · exact processNeighbours_pushed_marked g st (g.neighbours cur) c hcp

theorem checkQueue_closed {n : Nat} (g : ReachGraph n) (st : ReachState n)
    (q : List (Fin n)) (hz : ∀ y, st.failed_penalty y = 0)
    (hinv : ∀ x, st.reachable x = true → x ∈ q ∨
      ∀ y ∈ g.neighbours x, g.isNodeOk y = true → st.reachable y = true)
    (x : Fin n) (hx : (checkQueue g st q).reachable x = true)
    (y : Fin n) (hy : y ∈ g.neighbours x) (hok : g.isNodeOk y = true) :
    (checkQueue g st q).reachable y = true := by
  induction st, q using checkQueue.induct g with
  | case1 st =>
    rw [checkQueue] at hx ⊢
    rcases hinv x hx with hmem | hcl
    · simp at hmem
    · exact hcl y hy hok
  | case2 st cur rest pr ih =>
    rw [checkQueue] at hx ⊢
    refine ih (processNeighbours_penalty_zero g st (g.neighbours cur) hz) ?_ hx
    intro z hz2
    rcases processNeighbours_new_mem g st (g.neighbours cur) z hz2 with hold | hpush
    · rcases hinv z hold with hmem | hcl
      · rcases List.mem_cons.mp hmem with hzc | hzr
        · subst hzc
          right
          intro w hw hwok
          exact processNeighbours_closure g st (g.neighbours z) hz w hw hwok
        · left
          exact List.mem_append.mpr (Or.inl hzr)
      · right
        intro w hw hwok
        exact processNeighbours_mono g st (g.neighbours cur) w (hcl w hw hwok)
    · left
      exact List.mem_append.mpr (Or.inr hpush)

/-! ### Claim theorems -/

/-- C1: one call to the event-drain loop of `ExecuteAIJob` dispatches at
most 10 events (the fixed quota); events beyond the quota are not lost
but remain queued, and successive calls dispatch them in FIFO arrival
order (after `k` calls exactly the first `10 * k` events, in order, have
been dispatched). -/
theorem claim_C1_event_drain {α : Type} (events : List α) :
    eventQuota = 10 ∧
    (executeAIJobDrain events).1.length ≤ eventQuota ∧
    (executeAIJobDrain events).1 ++ (executeAIJobDrain events).2 = events ∧
    ∀ k, drainSeq events k = events.take (eventQuota * k) := by
  refine ⟨rfl, ?_, ?_, ?_⟩
  · simp [executeAIJobDrain, drainEvents_eq_take_drop]
  · simp [executeAIJobDrain, drainEvents_eq_take_drop]
  · intro k
    induction k generalizing events with
    | zero => simp [drainSeq]
    | succ k ih =>
      simp only [drainSeq, executeAIJobDrain, drainEvents_eq_take_drop]
      rw [ih]
      rw [show eventQuota * (k + 1) = eventQuota + eventQuota * k by ring]
      rw [List.take_add]

/-- C2: on every `ExecuteAIJob` call the quota handed to the
construction/connection job executor equals the number of storehouses
plus the number of military buildings, capped at 40, and at most that
many jobs are advanced regardless of the queue length. -/
theorem claim_C2_construction_quota {α : Type} (sh mil : Nat) (jobs : List α) :
    constructionJobQuota sh mil = min (sh + mil) 40 ∧
    (executeJobs jobs (constructionJobQuota sh mil)).1.length
      ≤ constructionJobQuota sh mil := by
  refine ⟨constructionJobQuota_eq_min sh mil, ?_⟩
  simp [executeJobs]

/-- C8: constructing the controller with a tier other than the three
supported ones throws (the controller is not created); each supported
tier yields its fixed pair of cadences. -/
theorem claim_C8_tier_cadences :
    initCadences AILevel.easy = Except.ok (2500, 1000) ∧
    initCadences AILevel.medium = Except.ok (750, 400) ∧
    initCadences AILevel.hard = Except.ok (100, 200) ∧
    initCadences AILevel.invalid = Except.error "Invalid AI level!" :=
  ⟨rfl, rfl, rfl, rfl⟩

/-- C5 counterexample: with a sub-surface resource under a `Blocked`
surface, `CalcResource` returns `Nothing`, not the specific sub-surface
class the claim predicts. -/
theorem claim_C5_counterexample :
    calcResource false false AISubSurfaceResource.Coal AISurfaceResource.Blocked
        = AINodeResource.Nothing ∧
    convertSubToNodeResource AISubSurfaceResource.Coal ≠ AINodeResource.Nothing :=
  ⟨rfl, by decide⟩

/-- C5 amended: `CalcResource` returns `Nothing` when neither resource is
present unless the tile is vital terrain and not on a road (then
`Plantspace`); the surface class when only a surface resource is present;
and, with a sub-surface resource present, `Multiple` under a stone or
wood surface, `Nothing` under a blocked surface, and the specific
sub-surface class otherwise. -/
theorem claim_C5_amended (onRoad isVitalTerrain : Bool)
    (subRes : AISubSurfaceResource) (surfRes : AISurfaceResource) :
    calcResource onRoad isVitalTerrain subRes surfRes
      = claimedCalcResource onRoad isVitalTerrain subRes surfRes := by
  cases onRoad <;> cases isVitalTerrain <;> cases subRes <;> cases surfRes <;> rfl

/-- C7: `findBestPosition` never returns a position on the avoid-set of
its map; in particular after `avoidPosition p`, a search in which `p` is
the only candidate returns the invalid-position sentinel. -/
theorem claim_C7_avoid_excluded (m : ResMapState) (candidates : List (Nat × Int))
    (minimum : Int) (p : Nat) (s : Int) :
    ((findBestPosition m candidates minimum).all fun r => decide (r ∉ m.avoid)) = true ∧
    findBestPosition (avoidPosition m p) [(p, s)] minimum = none := by
  constructor
  · cases hfb : findBestPosition m candidates minimum with
    | none => rfl
    | some r =>
      simp only [Option.all_some, decide_eq_true_eq]
      rcases Option.map_eq_some'.mp hfb with ⟨a, ha, hfst⟩
      subst hfst
      exact findBestPosition_foldl_mem m candidates minimum none a.1 a.2
        (by intro b hb; cases hb) (by simpa using ha)
  · simp [findBestPosition, avoidPosition]

/-- C10: once `TestDefeat` observes, after the 10-frame init phase, that
no storehouse is left, the controller sets `defeated` and issues exactly
one surrender (plus a chat message); every subsequent `RunGF` call
returns immediately with no command and no state change, whatever the
subsystems and worlds do — the defeated state is never left. -/
theorem claim_C10_defeat_latch (initCmds : List AICmd)
    (rest : AIState → WorldView → AIState × List AICmd) (s : AIState)
    (w : WorldView) (ws : List WorldView) (hd : s.defeated = false)
    (hinit : 10 ≤ s.isInitGfCompleted) (hempty : w.storehousesEmpty = true) :
    runGF initCmds rest s w
      = ({ s with defeated := true }, [.surrender, .chat]) ∧
    runGFSeq initCmds rest { s with defeated := true } ws
      = ({ s with defeated := true }, ws.map fun _ => []) := by
  constructor
  · rw [runGF]
    rw [if_neg (by simp [hd])]
    rw [if_pos (by simp [hinit, hempty])]
  · exact runGFSeq_defeated_noop _ _ _ _ rfl

/-- C10 witness: a controller past its init phase with no storehouses
surrenders once; two further calls (with and without storehouses) do
nothing. -/
theorem claim_C10_witness :
    (AIState.mk false 10).defeated = false ∧
    10 ≤ (AIState.mk false 10).isInitGfCompleted ∧
    (WorldView.mk true).storehousesEmpty = true ∧
    runGF [] restNoop ⟨false, 10⟩ ⟨true⟩
      = (⟨true, 10⟩, [AICmd.surrender, AICmd.chat]) ∧
    runGFSeq [] restNoop ⟨true, 10⟩ [⟨true⟩, ⟨false⟩] = (⟨true, 10⟩, [[], []]) := by
  have h := claim_C10_defeat_latch [] restNoop ⟨false, 10⟩ ⟨true⟩
    [⟨true⟩, ⟨false⟩] rfl (by decide) rfl
  exact ⟨rfl, by decide, rfl, h.1, h.2⟩

/-- C9 counterexample: the building-demand recomputation trigger
(`gf % 100 == 0`) carries no per-player salt — the distinct players 0
and 1 trigger it on identical tick sets. -/
theorem claim_C9_counterexample :
    sameTickSets demandRecomputeTrigger 0 1 ∧ (0 : Nat) ≠ 1 :=
  ⟨fun _ => rfl, by decide⟩

/-- C9 amended: every modulo-tick trigger of `RunGF` except the
building-demand recomputation offsets the frame counter by a per-player
salt, and for any two distinct player ids (below the 8-player maximum)
it fires on different tick sets on every supported tier; the
building-demand recomputation at `gf % 100 == 0` is unsalted and fires
on identical tick sets for all players. -/
theorem claim_C9_amended (p q : Nat) (hp : p < 8) (hq : q < 8) (hne : p ≠ q) :
    sameTickSets demandRecomputeTrigger p q ∧
    ¬ sameTickSets (landAttackTrigger AILevel.easy) p q ∧
    ¬ sameTickSets (landAttackTrigger AILevel.medium) p q ∧
    ¬ sameTickSets (landAttackTrigger AILevel.hard) p q ∧
    ¬ sameTickSets (seaAttackTrigger AILevel.easy) p q ∧
    ¬ sameTickSets (seaAttackTrigger AILevel.medium) p q ∧
    ¬ sameTickSets (seaAttackTrigger AILevel.hard) p q ∧
    ¬ sameTickSets (milUpgradeTrigger AILevel.medium) p q ∧
    ¬ sameTickSets (milUpgradeTrigger AILevel.hard) p q ∧
    ¬ sameTickSets expeditionTrigger p q ∧
    ¬ sameTickSets settingsTrigger p q ∧
    ¬ sameTickSets (buildTrigger AILevel.easy) p q ∧
    ¬ sameTickSets (buildTrigger AILevel.medium) p q ∧
    ¬ sameTickSets (buildTrigger AILevel.hard) p q := by
  have key : ∀ a b : Fin 8, a ≠ b →
      (landAttackTrigger AILevel.easy (5000 - 17 * a) a
          ≠ landAttackTrigger AILevel.easy (5000 - 17 * a) b) ∧
      (landAttackTrigger AILevel.medium (1500 - 17 * a) a
          ≠ landAttackTrigger AILevel.medium (1500 - 17 * a) b) ∧
      (landAttackTrigger AILevel.hard (200 - 17 * a) a
          ≠ landAttackTrigger AILevel.hard (200 - 17 * a) b) ∧
      (seaAttackTrigger AILevel.easy (4959 - 17 * a) a
          ≠ seaAttackTrigger AILevel.easy (4959 - 17 * a) b) ∧
      (seaAttackTrigger AILevel.medium (1459 - 17 * a) a
          ≠ seaAttackTrigger AILevel.medium (1459 - 17 * a) b) ∧
      (seaAttackTrigger AILevel.hard (159 - 17 * a) a
          ≠ seaAttackTrigger AILevel.hard (159 - 17 * a) b) ∧
      (milUpgradeTrigger AILevel.medium (219 - 17 * a) a
          ≠ milUpgradeTrigger AILevel.medium (219 - 17 * a) b) ∧
      (milUpgradeTrigger AILevel.hard (219 - 17 * a) a
          ≠ milUpgradeTrigger AILevel.hard (219 - 17 * a) b) ∧
      (expeditionTrigger (1500 - 13 * a) a ≠ expeditionTrigger (1500 - 13 * a) b) ∧
      (settingsTrigger (150 - 11 * a) a ≠ settingsTrigger (150 - 11 * a) b) ∧
      (buildTrigger AILevel.easy (1000 - 7 * a) a
          ≠ buildTrigger AILevel.easy (1000 - 7 * a) b) ∧
      (buildTrigger AILevel.medium (400 - 7 * a) a
          ≠ buildTrigger AILevel.medium (400 - 7 * a) b) ∧
      (buildTrigger AILevel.hard (200 - 7 * a) a
          ≠ buildTrigger AILevel.hard (200 - 7 * a) b) := by decide
  obtain ⟨k1, k2, k3, k4, k5, k6, k7, k8, k9, k10, k11, k12, k13⟩ :=
    key ⟨p, hp⟩ ⟨q, hq⟩ (fun hab => hne (congrArg Fin.val hab))
  exact ⟨fun _ => rfl, fun h => k1 (h _), fun h => k2 (h _), fun h => k3 (h _),
    fun h => k4 (h _), fun h => k5 (h _), fun h => k6 (h _), fun h => k7 (h _),
    fun h => k8 (h _), fun h => k9 (h _), fun h => k10 (h _), fun h => k11 (h _),
    fun h => k12 (h _), fun h => k13 (h _)⟩

/-- C9 witness: for the concrete players 0 and 1 the building-demand
trigger agrees on all frames while (for instance) the hard-tier attack
trigger does not. -/
theorem claim_C9_witness :
    (0 : Nat) < 8 ∧ (1 : Nat) < 8 ∧ (0 : Nat) ≠ 1 ∧
    sameTickSets demandRecomputeTrigger 0 1 ∧
    ¬ sameTickSets (landAttackTrigger AILevel.hard) 0 1 := by
  have h := claim_C9_amended 0 1 (by decide) (by decide) (by decide)
  exact ⟨by decide, by decide, by decide, h.1, h.2.2.2.1⟩

/-- C4 counterexample: two road-connected warehouses both at or above the
limit (6 wares each, limit 5) both end unblocked — the code releases a
group in which every warehouse exceeds the limit, where the claim demands
all blocked. -/
theorem claim_C4_counterexample :
    distributeGoodsByBlocking connAlways 0 [whSixA, whSixB] 5
        = [(whSixA, false), (whSixB, false)] ∧
    5 ≤ whSixA.wares ∧ 5 ≤ whSixB.wares := by decide

/-- C4 amended: when harbors do not dominate (`harbors < storehouses/2`),
`DistributeGoodsByBlocking` partitions the storehouses into
road-connectivity groups and balances each group alone: a warehouse ends
blocked exactly when it holds more than the limit while some warehouse of
its group is at or below the limit; in particular every below-limit
warehouse (so also any two of them in one group) ends unblocked, and a
group in which every warehouse is strictly above the limit ends entirely
unblocked. -/
theorem claim_C4_amended (connected : WhState → WhState → Bool)
    (numHarbors : Nat) (whs : List WhState) (limit : Nat)
    (h : numHarbors < whs.length / 2) :
    (whGroups connected whs).flatten.Perm whs ∧
    distributeGoodsByBlocking connected numHarbors whs limit
      = ((whGroups connected whs).map fun g =>
          g.map fun wh => (wh, whBlockDecision limit g wh)).flatten ∧
    ∀ g ∈ whGroups connected whs, ∀ wh ∈ g, wh.wares < limit →
      (wh, false) ∈ distributeGoodsByBlocking connected numHarbors whs limit := by
  have hcond : ¬ (whs.length / 2 ≤ numHarbors) := by omega
  have heq : distributeGoodsByBlocking connected numHarbors whs limit
      = ((whGroups connected whs).map fun g =>
          g.map fun wh => (wh, whBlockDecision limit g wh)).flatten := by
    simp only [distributeGoodsByBlocking, if_neg hcond]
    congr 1
    apply List.map_congr_left
    intro g _
    exact processWhGroup_eq_decision limit g
  refine ⟨whGroups_flatten_perm connected whs, heq, ?_⟩
  intro g hg wh hwh hlt
  rw [heq, List.mem_flatten]
  refine ⟨g.map fun wh2 => (wh2, whBlockDecision limit g wh2),
    List.mem_map_of_mem _ hg, ?_⟩
  have hdec : whBlockDecision limit g wh = false := by
    unfold whBlockDecision
    rw [decide_eq_false (by omega : ¬ limit < wh.wares), Bool.false_and]
  have hmem : (wh, whBlockDecision limit g wh)
      ∈ g.map fun wh2 => (wh2, whBlockDecision limit g wh2) :=
    List.mem_map_of_mem _ hwh
  rwa [hdec] at hmem

/-- C4 witness: with no harbors and two connected warehouses holding 3
and 8 wares against a limit of 5, the below-limit warehouse ends
unblocked. -/
theorem claim_C4_witness :
    0 < ([whBelow, whAbove] : List WhState).length / 2 ∧
    (whBelow, false) ∈ distributeGoodsByBlocking connAlways 0 [whBelow, whAbove] 5 := by
  have h := claim_C4_amended connAlways 0 [whBelow, whAbove] 5 (by decide)
  exact ⟨by decide, h.2.2 [whBelow, whAbove] (by decide) whBelow (by decide) (by decide)⟩

/-- C3 counterexample: a single candidate military target with an empty
garrison; the tallied attacker count (1) is positive and the tallied
strength (5) exceeds the defender strength (0), so the claim predicts an
attack on it, but on the hardest tier `TryToAttack` also skips military
targets with zero troops and issues no attack at all. -/
theorem claim_C3_counterexample :
    tryToAttack AILevel.hard idShuffle zeroRand [zeroTroopBld] = none ∧
    claimPredictedAttack AILevel.hard idShuffle zeroRand [zeroTroopBld]
      = some (0, 1) := by decide

/-- C3 amended: `TryToAttack` issues at most one attack — an attack on
the first candidate in priority order whose tallied attacker count is
positive and, on the hardest tier for military targets, whose tallied
strength exceeds the defender strength with a non-empty defender
garrison — and with zero own military buildings it issues none. -/
theorem claim_C3_amended (l : AILevel)
    (shuffleTail : List AttackTarget → List AttackTarget) (randv : Nat → Nat)
    (blds : List OwnMilBld) (hnil : shuffleTail [] = []) :
    tryToAttack l shuffleTail randv blds
      = ((priorityOrderedTargets shuffleTail randv blds).find? (codeAttackPred l)).map
          (fun t => (t.id, (tallyAttackers t).1)) ∧
    tryToAttack l shuffleTail randv [] = none := by
  constructor
  · exact selectAttack_eq_find l _
  · have hempty : priorityOrderedTargets shuffleTail randv [] = [] := by
      simp [priorityOrderedTargets, collectTargets, hnil]
    rw [tryToAttack, hempty]
    rfl

/-- C3 witness: the amended statement applied to the identity shuffle and
an empty own-building list. -/
theorem claim_C3_witness :
    idShuffle [] = ([] : List AttackTarget) ∧
    tryToAttack AILevel.hard idShuffle zeroRand [] = none :=
  ⟨rfl, (claim_C3_amended AILevel.hard idShuffle zeroRand [] rfl).2⟩

/-- C6: after `InitReachableNodes`, a tile is flagged reachable exactly
when it holds an own flag or is joined to an own-flag tile by a chain of
neighbour steps each landing on a tile passing the road-path feasibility
predicate; every other tile is flagged unreachable. -/
theorem claim_C6_reachability {n : Nat} (g : ReachGraph n) (x : Fin n) :
    (initReachableNodes g).reachable x = true ↔ FlagReachable g x := by
  unfold initReachableNodes
  constructor
  · intro hx
    refine checkQueue_sound g ⟨g.hasOwnFlag, fun _ => 0⟩
      ((List.finRange n).filter fun y => g.hasOwnFlag y) ?_ ?_ x hx
    · intro z hz
      exact FlagReachable.flag z hz
    · intro c hc
      exact (List.mem_filter.mp hc).2
  · intro hfr
    induction hfr with
    | flag z hz =>
      exact checkQueue_mono g _ _ z hz
    | step z y hz hn hok ih =>
      refine checkQueue_closed g ⟨g.hasOwnFlag, fun _ => 0⟩
        ((List.finRange n).filter fun w => g.hasOwnFlag w) (fun _ => rfl)
        ?_ z ih y hn hok
      intro a ha
      left
      exact List.mem_filter.mpr ⟨List.mem_finRange a, ha⟩

end S25
